import Mathlib

/-!
Verification of the All-Drive local/cloud synchronization core.

The definitions below are a shallow embedding of the TypeScript and
inline-Python source of the repository:

* `loadObjects` embeds the view merger of `FileExplorer`
  (src/Next/src/pages/SyncPanel.tsx, lines 528-655), including its three
  branches (virtual root, inside a folder, no sync session) and the final
  normalize/filter pass.
* `upload_blob_name` / `create_folder_path` embed the remote-key
  computation of the `GCPAdapter` inside the `gcp:startSync` handler of
  the Electron bridge (src/unnamed/part_004).
* `crash` / `crashes` embed the restart supervision of
  `startBackgroundPython` (same file), `stopBackgroundPython` and
  `stopSyncHandler` its teardown path and the `gcp:stopSync` handler.
* `listObjectsHandler` embeds the `gcp:listObjects` handler: the inline
  Python builds the listing inside a try/except whose except branch prints
  an empty JSON array, and the bridge wraps an exit-code-0 run as a
  success result.

Strings are modelled as `List Char` (the character data of a JS string);
each JS/Python string operation used by the source is embedded as its own
definition with the source idiom noted in the doc comment.
-/

namespace AllDrive

/-- Character data of a path or object key. -/
abbrev Name := List Char

/-- A character matched by the JS separator class `[/\\]`. -/
def isSep (c : Char) : Bool := c = '/' || c = '\\'

/-- A character removed by JS `String.prototype.trim`. -/
def isWs (c : Char) : Bool := c = ' ' || c = '\t' || c = '\n' || c = '\r'

/-- JS `s.replace(/[/\\]+$/, '')`: drop every trailing path separator. -/
def dropTrailingSeps (l : Name) : Name := (l.reverse.dropWhile isSep).reverse

/-- JS `s.replace(/\/$/, '')`: drop a single trailing forward slash, if present. -/
def dropOneSlash (l : Name) : Name :=
  if l.getLast? = some '/' then l.dropLast else l

/-- JS `s.split(/[/\\]/).pop()`: the segment after the last separator. -/
def lastSeg (l : Name) : Name := (l.reverse.takeWhile (fun c => !isSep c)).reverse

/-- JS `s.split('/').pop()`: the segment after the last forward slash. -/
def lastSlashSeg (l : Name) : Name := (l.reverse.takeWhile (fun c => c != '/')).reverse

/-- JS `s.split('/')[0]`: the segment before the first forward slash. -/
def firstSlashSeg (l : Name) : Name := l.takeWhile (fun c => c != '/')

/-- JS `parts.join('/')` after `parts.pop()` on `parts = s.split('/')`:
everything before the last forward slash, or the empty string if there is none. -/
def beforeLastSlash (l : Name) : Name :=
  match l.reverse.dropWhile (fun c => c != '/') with
  | [] => []
  | _ :: r => r.reverse

/-- JS truthiness-plus-trim test `s && s.trim().length > 0`:
the string holds at least one non-whitespace character. -/
def nonBlank (l : Name) : Bool := l.any (fun c => !isWs c)

/-- A name free of both path separators. -/
def sepFree (l : Name) : Bool := l.all (fun c => !isSep c)

/-- Sync state labels attached to merged entries (`SyncStatus` in SyncPanel.tsx). -/
inductive SyncState
  | pending
  | uploading
  | synced
deriving DecidableEq, Repr

/-- A merged listing entry (`GCSObject` in SyncPanel.tsx); the `updated`
timestamp field is carried opaquely by the source merge and never inspected,
so it is omitted here. -/
structure Entry where
  name : Name
  size : Nat
  contentType : Name
  isLocal : Bool
  syncState : Option SyncState
deriving DecidableEq, Repr

/-- The `'directory'` content type marker. -/
def directoryCT : Name := "directory".data

/-- SyncPanel.tsx line 540: `lastSyncPath.split(/[/\\]/).pop() || 'Desktop'`. -/
def rootNameOf (p : Name) : Name :=
  let r := lastSeg p
  if r = [] then "Desktop".data else r

/-- The synthesized sync-root entry pushed first in the virtual-root branch
(SyncPanel.tsx lines 544-550); `isLocal` is left unset there, modelled `false`. -/
def syncedRootEntry (rootName : Name) : Entry :=
  { name := rootName, size := 0, contentType := directoryCT,
    isLocal := false, syncState := some .synced }

/-- One iteration of the virtual-root `gcsFiles.forEach` (SyncPanel.tsx
lines 553-569): strip one trailing slash, skip empty, take the top-level
base name, skip blank, and append the entry when its base name differs from
the root name and is not already present. -/
def virtualRootStep (rootName : Name) (acc : List Entry) (gcs : Entry) : List Entry :=
  let clean := dropOneSlash gcs.name
  if clean = [] then acc
  else
    let base := firstSlashSeg clean
    if !nonBlank base then acc
    else if base != rootName && acc.all (fun f => f.name != base) then
      acc ++ [{ gcs with name := base, isLocal := false, syncState := some .synced }]
    else acc

/-- The virtual-root branch of `loadObjects` (SyncPanel.tsx lines 542-569),
before the final normalize/filter pass. -/
def virtualRoot (rootName : Name) (gcs : List Entry) : List Entry :=
  gcs.foldl (virtualRootStep rootName) [syncedRootEntry rootName]

/-- SyncPanel.tsx lines 573-580: the path of the current folder relative to
the sync root. -/
def relativePathOf (rootName clp : Name) : Name :=
  if clp == rootName then []
  else if List.isPrefixOf (rootName ++ ['/']) clp then clp.drop (rootName.length + 1)
  else clp

/-- SyncPanel.tsx line 592: the remote-relative path of a local entry. -/
def gcsPathFor (relativePath localName : Name) : Name :=
  if relativePath = [] then localName else relativePath ++ '/' :: localName

/-- SyncPanel.tsx lines 590-603: a local entry merged against the remote
listing; `synced` when a remote counterpart exists at the relative path (with
or without the root-name prefix), else `pending`. -/
def localMerged (rootName relativePath : Name) (gcs : List Entry) (l : Entry) : Entry :=
  let p := gcsPathFor relativePath l.name
  let matched := gcs.any (fun g =>
    let c := dropOneSlash g.name
    c == p || c == rootName ++ '/' :: p)
  { l with
    contentType := if l.contentType = [] then "application/octet-stream".data else l.contentType,
    syncState := some (if matched then .synced else .pending) }

/-- SyncPanel.tsx lines 610-611: `parts.pop() || cleanG` — the level name of
a remote entry: the segment after its last slash, or the whole cleaned name
when that segment is empty. -/
def insideGcsName (g : Entry) : Name :=
  if lastSlashSeg (dropOneSlash g.name) = [] then dropOneSlash g.name
  else lastSlashSeg (dropOneSlash g.name)

/-- SyncPanel.tsx lines 612-616: whether a remote entry's slash-prefix equals
the current level's prefix (`rootName` at the top of the synced tree, else
`rootName + "/" + relativePath`). -/
def insideOnLevel (rootName relativePath : Name) (g : Entry) : Bool :=
  beforeLastSlash (dropOneSlash g.name) ==
      (if relativePath = [] then rootName else rootName ++ '/' :: relativePath) ||
    (relativePath == [] && beforeLastSlash (dropOneSlash g.name) == rootName)

/-- One iteration of the cloud-only `gcsFiles.forEach` inside a folder
(SyncPanel.tsx lines 606-626): skip blank cleaned names, and append the
entry under its level name when it sits on the current level, its level name
is nonempty, and no entry of that name is present yet. -/
def insideStep (rootName relativePath : Name) (acc : List Entry) (g : Entry) : List Entry :=
  if !nonBlank (dropOneSlash g.name) then acc
  else if insideOnLevel rootName relativePath g && insideGcsName g != [] &&
      acc.all (fun f => f.name != insideGcsName g) then
    acc ++ [{ g with name := insideGcsName g, isLocal := false, syncState := some .synced }]
  else acc

/-- The inside-a-folder branch of `loadObjects` (SyncPanel.tsx lines 570-627),
before the final normalize/filter pass. -/
def insideFolder (rootName clp : Name) (gcs locals : List Entry) : List Entry :=
  let relativePath := relativePathOf rootName clp
  gcs.foldl (insideStep rootName relativePath)
    (locals.map (localMerged rootName relativePath gcs))

/-- The no-session branch of `loadObjects` (SyncPanel.tsx lines 629-634):
the remote listing passed through 1:1, dropping entries whose final slash
segment is empty or whitespace. -/
def noSyncView (gcs : List Entry) : List Entry :=
  gcs.filter (fun f => nonBlank (lastSlashSeg (dropOneSlash f.name)))

/-- The final safety pass of `loadObjects` (SyncPanel.tsx lines 636-646):
strip trailing separators from every name, then drop entries whose final
path segment is empty or whitespace-only. -/
def postProcess (l : List Entry) : List Entry :=
  (l.map (fun f => { f with name := dropTrailingSeps f.name })).filter
    (fun f => nonBlank (lastSeg f.name))

/-- The view merger `loadObjects` (SyncPanel.tsx lines 528-655) as a pure
function of the sync-session path, the navigation path, the remote listing
(`[]` when the listing call did not succeed) and the local listing. -/
def loadObjects (lastSyncPath : Option Name) (currentLocalPath : Name)
    (gcs locals : List Entry) : List Entry :=
  postProcess (match lastSyncPath with
    | some p =>
      let rootName := rootNameOf p
      if currentLocalPath = [] then virtualRoot rootName gcs
      else insideFolder rootName currentLocalPath gcs locals
    | none => noSyncView gcs)

/-- The display name of a merged entry: the final path segment of its name
(SyncPanel.tsx line 644 and the render sites). -/
def displayName (e : Entry) : Name := lastSeg e.name

/-- An entry whose name carries no trailing separator and whose final path
segment holds a non-whitespace character. -/
def entryNormalized (e : Entry) : Bool :=
  (dropTrailingSeps e.name == e.name) && nonBlank (lastSeg e.name)

theorem dropWhile_dropWhile (p : Char → Bool) (l : List Char) :
    (l.dropWhile p).dropWhile p = l.dropWhile p := by
  induction l with
  | nil => rfl
  | cons c tl ih =>
    cases h : p c <;> simp [List.dropWhile_cons, h, ih]

theorem dropTrailingSeps_idem (l : Name) :
    dropTrailingSeps (dropTrailingSeps l) = dropTrailingSeps l := by
  simp [dropTrailingSeps, dropWhile_dropWhile]

theorem postProcess_all_normalized (l : List Entry) :
    (postProcess l).all entryNormalized = true := by
  rw [List.all_eq_true]
  intro e he
  unfold postProcess at he
  have hpred := List.of_mem_filter he
  have hmem := List.mem_of_mem_filter he
  obtain ⟨y, _, rfl⟩ := List.mem_map.mp hmem
  unfold entryNormalized
  rw [Bool.and_eq_true]
  exact ⟨beq_iff_eq.mpr (dropTrailingSeps_idem _), hpred⟩

/-- `const MAX_RESTARTS = 3` of the Electron bridge (src/unnamed/part_004). -/
def MAX_RESTARTS : Nat := 3

/-- State of the `startBackgroundPython` supervisor: the module-level
`restartCount`, whether a child process is alive (`activeSyncProcess`),
the resolution of the returned promise (`hasResolved` plus the resolved
`success` flag), and the backoff used for the most recent relaunch. -/
structure Supervisor where
  restartCount : Nat
  active : Bool
  resolved : Option Bool
  lastBackoffMs : Option Nat
deriving DecidableEq, Repr

/-- Supervisor state right after `launch()` first spawns the child. -/
def initSupervisor : Supervisor :=
  { restartCount := 0, active := true, resolved := none, lastBackoffMs := none }

/-- The `close` handler of `startBackgroundPython` for a nonzero exit code
(src/unnamed/part_004): below `MAX_RESTARTS` it increments `restartCount` and
schedules `launch` again after a 2000 ms backoff; otherwise it clears
`activeSyncProcess` and, when the promise is still pending, resets
`restartCount` and resolves it with `success: false`. A crash with no live
child changes nothing. -/
def crash (s : Supervisor) : Supervisor :=
  if s.active then
    if s.restartCount < MAX_RESTARTS then
      { s with restartCount := s.restartCount + 1, lastBackoffMs := some 2000 }
    else
      { restartCount := if s.resolved.isNone then 0 else s.restartCount,
        active := false,
        resolved := if s.resolved.isNone then some false else s.resolved,
        lastBackoffMs := none }
  else s

/-- The supervisor state after `n` consecutive crashes of the child. -/
def crashes : Nat → Supervisor
  | 0 => initSupervisor
  | n + 1 => crash (crashes n)

/-- State touched by `stopBackgroundPython`: whether `activeSyncProcess` is
non-null, and the module-level `restartCount`. -/
structure BridgeSync where
  active : Bool
  restartCount : Nat
deriving DecidableEq, Repr

/-- Result envelope of the `gcp:stopSync` IPC handler. -/
structure StopResult where
  success : Bool
deriving DecidableEq, Repr

/-- `stopBackgroundPython` (src/unnamed/part_004): with a live process it
sets `restartCount` past the bound, kills the process, nulls the handle and
returns `true`; otherwise it returns `false` without touching anything. -/
def stopBackgroundPython (s : BridgeSync) : BridgeSync × Bool :=
  if s.active then ({ active := false, restartCount := MAX_RESTARTS + 1 }, true)
  else (s, false)

/-- The `gcp:stopSync` handler (src/unnamed/part_004): returns
`{ success: killed }` where `killed` is `stopBackgroundPython`'s result. -/
def stopSyncHandler (s : BridgeSync) : BridgeSync × StopResult :=
  ((stopBackgroundPython s).1, { success := (stopBackgroundPython s).2 })

/-- Python `s.replace(os.sep, '/')` for OS separator `sep`. -/
def normSep (sep : Char) (l : Name) : Name :=
  l.map (fun c => if c = sep then '/' else c)

/-- `GCPAdapter.upload_file` blob-name computation inside the
`gcp:startSync` Python (src/unnamed/part_004):
`f"{folder_name}/{rel_path}".replace(os.sep, '/')` where `folder_name` is
the basename of the sync root and `rel_path` the file's OS path relative to
the root. -/
def upload_blob_name (sep : Char) (folderName relPath : Name) : Name :=
  normSep sep (folderName ++ '/' :: relPath)

/-- `GCPAdapter.create_folder` key computation inside the `gcp:startSync`
Python (src/unnamed/part_004): append `'/'` unless the relative folder path
already ends with one, then prepend the root folder name and normalize
separators. -/
def create_folder_path (sep : Char) (folderName folderPath : Name) : Name :=
  normSep sep (folderName ++ '/' ::
    (if folderPath.getLast? = some '/' then folderPath else folderPath ++ ['/']))

/-- A stored remote object, as seen by the listing code. -/
structure Blob where
  name : Name
  size : Nat
  contentType : Name
deriving DecidableEq, Repr

/-- A remote-store failure (authorization error, missing bucket, network). -/
structure StoreErr where
  msg : Name
deriving DecidableEq, Repr

/-- An object record printed by the `gcp:listObjects` Python
(src/unnamed/part_004); the `updated` field is always `None` for folders and
never inspected downstream, so it is omitted. -/
structure GObj where
  name : Name
  size : Nat
  contentType : Name
  fileCount : Nat
  folderCount : Nat
deriving DecidableEq, Repr

/-- The result envelope the bridge returns for a Python run that exits 0
with a JSON array on its last stdout line. -/
structure PyListResult where
  success : Bool
  data : List GObj
deriving DecidableEq, Repr

/-- Items of `bucket.list_blobs(prefix=pfx, delimiter='/')`: blobs under the
prefix whose remainder holds no further slash. -/
def listItems (store : List Blob) (pfx : Name) : List Blob :=
  store.filter (fun b => pfx.isPrefixOf b.name && !(b.name.drop pfx.length).contains '/')

/-- `iterator.prefixes` of the same delimited listing: each distinct
common prefix up to and including the next slash. -/
def listCommonPfx (store : List Blob) (pfx : Name) : List Name :=
  (store.filterMap (fun b =>
    if pfx.isPrefixOf b.name && (b.name.drop pfx.length).contains '/' then
      some (pfx ++ (b.name.drop pfx.length).takeWhile (fun c => c != '/') ++ ['/'])
    else none)).dedup

/-- Blobs of an undelimited listing `bucket.list_blobs(prefix=p)`. -/
def blobsUnder (store : List Blob) (p : Name) : List Blob :=
  store.filter (fun b => p.isPrefixOf b.name)

/-- The object list printed by the `gcp:listObjects` Python in its success
path (src/unnamed/part_004): every item as a file record with zero counts,
then every common prefix as a directory record whose size sums the blobs
under it, whose `fileCount` counts those not ending in `'/'`, and whose
`folderCount` counts the sub-prefixes of a second delimited listing. -/
def buildObjects (store : List Blob) (pfx : Name) : List GObj :=
  (listItems store pfx).map (fun b =>
    { name := b.name, size := b.size, contentType := b.contentType,
      fileCount := 0, folderCount := 0 })
  ++ (listCommonPfx store pfx).map (fun p =>
    { name := p,
      size := ((blobsUnder store p).map Blob.size).sum,
      contentType := directoryCT,
      fileCount := ((blobsUnder store p).filter (fun b => b.name.getLast? != some '/')).length,
      folderCount := (listCommonPfx store p).length })

/-- The Python body of the `gcp:listObjects` handler: the whole listing is
wrapped in a try/except whose except branch prints an empty JSON array, so a
store failure produces the same output as an empty listing. -/
def listObjectsPy (resp : Except StoreErr (List Blob)) (pfx : Name) : List GObj :=
  match resp with
  | .ok store => buildObjects store pfx
  | .error _ => []

/-- The `gcp:listObjects` handler as the caller sees it: the Python exits 0
on both paths and its last line parses as JSON, so `runPythonCode` always
resolves `{ success: true, data: ... }`. -/
def listObjectsHandler (resp : Except StoreErr (List Blob)) (pfx : Name) : PyListResult :=
  { success := true, data := listObjectsPy resp pfx }

/-- Status values carried by `sync_event` records. -/
inductive EvStatus
  | pending
  | uploading
  | synced
  | error
deriving DecidableEq, Repr

/-- A structured `sync_event` record emitted on stdout by the
`gcp:startSync` Python (`log_event` in src/unnamed/part_004). -/
structure SyncEventRec where
  file : Name
  status : EvStatus
deriving DecidableEq, Repr

/-- Events printed by `GCPAdapter.upload_file` (src/unnamed/part_004):
`uploading` before the transfer, then `synced` on success or `error` on
failure. -/
def uploadEvents (f : Name) (ok : Bool) : List SyncEventRec :=
  ⟨f, .uploading⟩ :: [⟨f, if ok then .synced else .error⟩]

/-- Modelled from the spec: the Change Watcher (`RealTimeSync` of the Legacy
`file_watcher` module, which is not under src/) reports a created file to
`watcher_callback`, which emits a `pending` event for it, and then hands it
to `GCPAdapter.upload_file`, whose own emissions follow (spec sections 4.4,
4.5 and 6). -/
def watchEvents (f : Name) (ok : Bool) : List SyncEventRec :=
  ⟨f, .pending⟩ :: uploadEvents f ok

/-- The stdout event stream for a sequence of watched files processed in
arrival order, each tagged with whether its upload succeeds. -/
def emitTrace (jobs : List (Name × Bool)) : List SyncEventRec :=
  (jobs.map (fun j => watchEvents j.1 j.2)).flatten

theorem dropWhile_eq_self_of_all (p : Char → Bool) :
    ∀ l : List Char, (∀ c ∈ l, p c = false) → l.dropWhile p = l
  | [], _ => rfl
  | c :: t, h => by
    rw [List.dropWhile_cons, h c (List.mem_cons_self c t)]
    simp

theorem takeWhile_eq_self_of_all (p : Char → Bool) :
    ∀ l : List Char, (∀ c ∈ l, p c = true) → l.takeWhile p = l
  | [], _ => rfl
  | c :: t, h => by
    rw [List.takeWhile_cons, h c (List.mem_cons_self c t)]
    simp [takeWhile_eq_self_of_all p t (fun x hx => h x (List.mem_cons_of_mem c hx))]

theorem mem_takeWhile (p : Char → Bool) :
    ∀ (l : List Char) (c : Char), c ∈ l.takeWhile p → c ∈ l ∧ p c = true
  | [], c, h => by cases h
  | a :: t, c, h => by
    rw [List.takeWhile_cons] at h
    by_cases hp : p a = true
    · rw [if_pos hp] at h
      rcases List.mem_cons.mp h with h1 | h1
      · exact ⟨h1 ▸ List.mem_cons_self a t, h1 ▸ hp⟩
      · obtain ⟨hm, hpc⟩ := mem_takeWhile p t c h1
        exact ⟨List.mem_cons_of_mem a hm, hpc⟩
    · rw [if_neg hp] at h
      cases h

theorem dropTrailingSeps_sepFree (l : Name) (h : ∀ c ∈ l, isSep c = false) :
    dropTrailingSeps l = l := by
  unfold dropTrailingSeps
  rw [dropWhile_eq_self_of_all isSep l.reverse (fun c hc => h c (List.mem_reverse.mp hc)),
    List.reverse_reverse]

theorem lastSeg_sepFree (l : Name) (h : ∀ c ∈ l, isSep c = false) :
    lastSeg l = l := by
  unfold lastSeg
  rw [takeWhile_eq_self_of_all _ l.reverse
      (fun c hc => by simp [h c (List.mem_reverse.mp hc)]),
    List.reverse_reverse]

theorem mem_lastSeg_not_sep (l : Name) (c : Char) (h : c ∈ lastSeg l) :
    isSep c = false := by
  unfold lastSeg at h
  rw [List.mem_reverse] at h
  simpa using (mem_takeWhile _ _ _ h).2

theorem mem_firstSlashSeg (l : Name) (c : Char) (h : c ∈ firstSlashSeg l) :
    c ∈ l ∧ ¬ c = '/' := by
  obtain ⟨hm, hp⟩ := mem_takeWhile _ _ _ h
  exact ⟨hm, by simpa using hp⟩

theorem mem_lastSlashSeg (l : Name) (c : Char) (h : c ∈ lastSlashSeg l) :
    c ∈ l ∧ ¬ c = '/' := by
  unfold lastSlashSeg at h
  rw [List.mem_reverse] at h
  obtain ⟨hm, hp⟩ := mem_takeWhile _ _ _ h
  exact ⟨List.mem_reverse.mp hm, by simpa using hp⟩

theorem mem_dropOneSlash (l : Name) (c : Char) (h : c ∈ dropOneSlash l) : c ∈ l := by
  unfold dropOneSlash at h
  split at h
  · exact List.dropLast_subset l h
  · exact h

theorem lastSlashSeg_ne_nil (l : Name) (h0 : l ≠ []) (h1 : l.getLast? ≠ some '/') :
    lastSlashSeg l ≠ [] := by
  unfold lastSlashSeg
  cases hr : l.reverse with
  | nil => exact absurd (by simpa using congrArg List.reverse hr) h0
  | cons c r =>
    have hc : l.getLast? = some c := by rw [← List.head?_reverse, hr]; rfl
    have hcs : c ≠ '/' := fun he => h1 (he ▸ hc)
    rw [List.takeWhile_cons, if_pos (by simpa using hcs)]
    simp

theorem map_eq_self_of (f : Entry → Entry) :
    ∀ l : List Entry, (∀ e ∈ l, f e = e) → l.map f = l
  | [], _ => rfl
  | e :: t, h => by
    rw [List.map_cons, h e (List.mem_cons_self e t),
      map_eq_self_of f t (fun x hx => h x (List.mem_cons_of_mem e hx))]

theorem map_eq_map_of (f g : Entry → Name) :
    ∀ l : List Entry, (∀ e ∈ l, f e = g e) → l.map f = l.map g
  | [], _ => rfl
  | e :: t, h => by
    rw [List.map_cons, List.map_cons, h e (List.mem_cons_self e t),
      map_eq_map_of f g t (fun x hx => h x (List.mem_cons_of_mem e hx))]

theorem rootNameOf_sepFree (p : Name) : ∀ c ∈ rootNameOf p, isSep c = false := by
  intro c hc
  by_cases h : lastSeg p = []
  · simp only [rootNameOf, h, if_pos] at hc
    revert hc
    revert c
    decide
  · simp only [rootNameOf, if_neg h] at hc
    exact mem_lastSeg_not_sep p c hc

theorem virtualRootStep_cases (rootName : Name) (acc : List Entry) (g : Entry) :
    virtualRootStep rootName acc g = acc ∨
    ∃ x : Entry, x.name = firstSlashSeg (dropOneSlash g.name) ∧
      x.syncState = some .synced ∧ x.isLocal = false ∧
      nonBlank x.name = true ∧ x.name ≠ rootName ∧
      (∀ f ∈ acc, f.name ≠ x.name) ∧
      virtualRootStep rootName acc g = acc ++ [x] := by
  simp only [virtualRootStep]
  split
  · exact Or.inl rfl
  · split
    · exact Or.inl rfl
    · split
      · next h2 h3 =>
        rw [Bool.and_eq_true, bne_iff_ne, List.all_eq_true] at h3
        refine Or.inr ⟨_, rfl, rfl, rfl, ?_, h3.1, ?_, rfl⟩
        · revert h2
          cases nonBlank (firstSlashSeg (dropOneSlash g.name)) <;> simp
        · intro f hf
          simpa using h3.2 f hf
      · exact Or.inl rfl

theorem virtualRoot_foldl_mono (rootName : Name) :
    ∀ (gcs acc : List Entry) (e : Entry), e ∈ acc →
      e ∈ gcs.foldl (virtualRootStep rootName) acc
  | [], _, _, h => h
  | g :: t, acc, e, h => by
    rw [List.foldl_cons]
    apply virtualRoot_foldl_mono rootName t
    rcases virtualRootStep_cases rootName acc g with hc | ⟨x, _, _, _, _, _, _, hc⟩
    · rw [hc]; exact h
    · rw [hc]; exact List.mem_append_left _ h

/-- Facts true of every entry the virtual-root branch appends after the
synthesized root entry. -/
def VRProp (rootName : Name) (gcs : List Entry) (e : Entry) : Prop :=
  e.syncState = some .synced ∧ e.isLocal = false ∧ e.name ≠ rootName ∧
    (∃ g ∈ gcs, e.name = firstSlashSeg (dropOneSlash g.name)) ∧
    ∀ c ∈ e.name, isSep c = false

theorem VRProp_cons (rootName : Name) (g : Entry) (t : List Entry) (e : Entry)
    (h : VRProp rootName t e) : VRProp rootName (g :: t) e := by
  obtain ⟨h1, h2, h3, ⟨g0, hg0, hn⟩, h5⟩ := h
  exact ⟨h1, h2, h3, ⟨g0, List.mem_cons_of_mem g hg0, hn⟩, h5⟩

theorem virtualRoot_shape (rootName : Name) :
    ∀ (gcs acc : List Entry), (∀ g ∈ gcs, ∀ c ∈ g.name, ¬ c = '\\') →
      ∃ rest, gcs.foldl (virtualRootStep rootName) acc = acc ++ rest ∧
        ∀ e ∈ rest, VRProp rootName gcs e
  | [], acc, _ => ⟨[], by simp, by simp⟩
  | g :: t, acc, hg => by
    rw [List.foldl_cons]
    obtain ⟨rest, heq, hall⟩ :=
      virtualRoot_shape rootName t (virtualRootStep rootName acc g)
        (fun g0 hg0 => hg g0 (List.mem_cons_of_mem g hg0))
    rcases virtualRootStep_cases rootName acc g with hc |
      ⟨x, hx1, hx2, hx3, hx4, hx5, hx6, hc⟩
    · rw [hc] at heq ⊢
      exact ⟨rest, heq, fun e he => VRProp_cons rootName g t e (hall e he)⟩
    · rw [hc] at heq ⊢
      refine ⟨x :: rest, by rw [heq]; simp, ?_⟩
      intro e he
      rcases List.mem_cons.mp he with rfl | he2
      · refine ⟨hx2, hx3, hx5, ⟨g, List.mem_cons_self g t, hx1⟩, ?_⟩
        intro c hc2
        rw [hx1] at hc2
        obtain ⟨hm, hslash⟩ := mem_firstSlashSeg _ c hc2
        have hb := hg g (List.mem_cons_self g t) c (mem_dropOneSlash _ c hm)
        simp [isSep, hslash, hb]
      · exact VRProp_cons rootName g t e (hall e he2)

theorem virtualRoot_presence (rootName : Name) :
    ∀ (gcs acc : List Entry) (g : Entry), g ∈ gcs →
      firstSlashSeg (dropOneSlash g.name) ≠ rootName →
      nonBlank (firstSlashSeg (dropOneSlash g.name)) = true →
      ∃ e ∈ gcs.foldl (virtualRootStep rootName) acc,
        e.name = firstSlashSeg (dropOneSlash g.name)
  | [], _, _, hmem, _, _ => absurd hmem (List.not_mem_nil _)
  | g0 :: t, acc, g, hmem, hne, hnb => by
    rw [List.foldl_cons]
    rcases List.mem_cons.mp hmem with rfl | hmem2
    · have hstep : ∃ e ∈ virtualRootStep rootName acc g,
          e.name = firstSlashSeg (dropOneSlash g.name) := by
        simp only [virtualRootStep]
        split
        · next h1 =>
          rw [h1] at hnb
          exact absurd hnb (by decide)
        · split
          · next h2 =>
            rw [Bool.not_eq_true'] at h2
            rw [h2] at hnb
            cases hnb
          · split
            · exact ⟨_, List.mem_append_right _ (List.mem_singleton_self _), rfl⟩
            · next h3 =>
              have hb : (firstSlashSeg (dropOneSlash g.name) != rootName) = true :=
                bne_iff_ne.mpr hne
              have hna : ¬ (acc.all
                  (fun f => f.name != firstSlashSeg (dropOneSlash g.name)) = true) :=
                fun ha => h3 (by rw [Bool.and_eq_true]; exact ⟨hb, ha⟩)
              rw [List.all_eq_true] at hna
              push_neg at hna
              obtain ⟨f, hf, hfe⟩ := hna
              refine ⟨f, hf, ?_⟩
              by_contra hcon
              exact hfe (bne_iff_ne.mpr hcon)
      obtain ⟨e, he, hn⟩ := hstep
      exact ⟨e, virtualRoot_foldl_mono rootName t _ e he, hn⟩
    · exact virtualRoot_presence rootName t _ g hmem2 hne hnb

theorem virtualRoot_nodup (rootName : Name) :
    ∀ (gcs acc : List Entry), (acc.map Entry.name).Nodup →
      ((gcs.foldl (virtualRootStep rootName) acc).map Entry.name).Nodup
  | [], _, h => h
  | g :: t, acc, h => by
    rw [List.foldl_cons]
    apply virtualRoot_nodup rootName t
    rcases virtualRootStep_cases rootName acc g with hc |
      ⟨x, _, _, _, _, _, hx6, hc⟩
    · rw [hc]; exact h
    · rw [hc, List.map_append, List.nodup_append]
      refine ⟨h, List.nodup_singleton _, ?_⟩
      intro a ha hb
      obtain ⟨f, hf, rfl⟩ := List.mem_map.mp ha
      rw [List.map_singleton, List.mem_singleton] at hb
      exact hx6 f hf hb

theorem filter_cons_pos (p : Entry → Bool) (a : Entry) (l : List Entry) (h : p a = true) :
    (a :: l).filter p = a :: l.filter p := by
  simp [List.filter, h]

theorem insideStep_cases (rootName relativePath : Name) (acc : List Entry) (g : Entry) :
    insideStep rootName relativePath acc g = acc ∨
    ∃ x : Entry,
      x.name = insideGcsName g ∧
      x.syncState = some .synced ∧ x.isLocal = false ∧
      nonBlank (dropOneSlash g.name) = true ∧
      (∀ f ∈ acc, f.name ≠ x.name) ∧
      insideStep rootName relativePath acc g = acc ++ [x] := by
  unfold insideStep
  by_cases h1 : (!nonBlank (dropOneSlash g.name)) = true
  · rw [if_pos h1]
    exact Or.inl rfl
  · rw [if_neg h1]
    by_cases h2 : (insideOnLevel rootName relativePath g && insideGcsName g != [] &&
        acc.all (fun f => f.name != insideGcsName g)) = true
    · rw [if_pos h2]
      simp only [Bool.and_eq_true, List.all_eq_true] at h2
      refine Or.inr ⟨_, rfl, rfl, rfl, ?_, ?_, rfl⟩
      · revert h1
        cases nonBlank (dropOneSlash g.name) <;> simp
      · intro f hf
        simpa using h2.2 f hf
    · rw [if_neg h2]
      exact Or.inl rfl

theorem insideFolder_foldl_nodup (rootName relativePath : Name) :
    ∀ (gcs acc : List Entry), (acc.map Entry.name).Nodup →
      ((gcs.foldl (insideStep rootName relativePath) acc).map Entry.name).Nodup
  | [], _, h => h
  | g :: t, acc, h => by
    rw [List.foldl_cons]
    apply insideFolder_foldl_nodup rootName relativePath t
    rcases insideStep_cases rootName relativePath acc g with hc |
      ⟨x, _, _, _, _, hx5, hc⟩
    · rw [hc]; exact h
    · rw [hc, List.map_append, List.nodup_append]
      refine ⟨h, List.nodup_singleton _, ?_⟩
      intro a ha hb
      obtain ⟨f, hf, rfl⟩ := List.mem_map.mp ha
      rw [List.map_singleton, List.mem_singleton] at hb
      exact hx5 f hf hb

theorem insideFolder_foldl_sepFree (rootName relativePath : Name) :
    ∀ (gcs acc : List Entry),
      (∀ g ∈ gcs, (∀ c ∈ g.name, ¬ c = '\\') ∧
        ¬ (dropOneSlash g.name).getLast? = some '/') →
      (∀ e ∈ acc, ∀ c ∈ e.name, isSep c = false) →
      ∀ e ∈ gcs.foldl (insideStep rootName relativePath) acc,
        ∀ c ∈ e.name, isSep c = false
  | [], _, _, hacc => hacc
  | g :: t, acc, hg, hacc => by
    rw [List.foldl_cons]
    refine insideFolder_foldl_sepFree rootName relativePath t _
      (fun g0 hg0 => hg g0 (List.mem_cons_of_mem g hg0)) ?_
    rcases insideStep_cases rootName relativePath acc g with hc |
      ⟨x, hx1, _, _, hx4, _, hc⟩
    · rw [hc]; exact hacc
    · rw [hc]
      intro e he
      rcases List.mem_append.mp he with he1 | he1
      · exact hacc e he1
      · rw [List.mem_singleton] at he1
        subst he1
        intro c hcm
        rw [hx1] at hcm
        have hnn : dropOneSlash g.name ≠ [] := by
          intro hnil
          rw [hnil] at hx4
          cases hx4
        have hpop : lastSlashSeg (dropOneSlash g.name) ≠ [] :=
          lastSlashSeg_ne_nil _ hnn (hg g (List.mem_cons_self g t)).2
        rw [insideGcsName, if_neg hpop] at hcm
        obtain ⟨hm, hslash⟩ := mem_lastSlashSeg _ c hcm
        have hb := (hg g (List.mem_cons_self g t)).1 c (mem_dropOneSlash _ c hm)
        simp [isSep, hslash, hb]

theorem postProcess_display_nodup (X : List Entry)
    (h1 : (X.map Entry.name).Nodup)
    (h2 : ∀ e ∈ X, ∀ c ∈ e.name, isSep c = false) :
    ((postProcess X).map displayName).Nodup := by
  unfold postProcess
  rw [map_eq_self_of _ X (fun e he => by
    rw [dropTrailingSeps_sepFree e.name (h2 e he)])]
  rw [map_eq_map_of displayName Entry.name _ (fun e he => by
    have hin := List.mem_of_mem_filter he
    exact lastSeg_sepFree e.name (h2 e hin))]
  exact List.Nodup.sublist ((List.filter_sublist X).map Entry.name) h1

theorem postProcess_cons_of (r : Entry) (t : List Entry)
    (h1 : dropTrailingSeps r.name = r.name) (h2 : nonBlank (lastSeg r.name) = true) :
    postProcess (r :: t) = r :: postProcess t := by
  unfold postProcess
  rw [List.map_cons]
  rw [show ({ r with name := dropTrailingSeps r.name } : Entry) = r from by rw [h1]]
  exact filter_cons_pos _ r _ h2

theorem normSep_eq_self (sep : Char) :
    ∀ l : Name, (∀ c ∈ l, ¬ c = sep) → normSep sep l = l
  | [], _ => rfl
  | c :: t, h => by
    have hc : ¬ c = sep := h c (List.mem_cons_self c t)
    have ht := normSep_eq_self sep t (fun x hx => h x (List.mem_cons_of_mem c hx))
    simp only [normSep, List.map_cons] at ht ⊢
    rw [if_neg hc, ht]

theorem crashes_terminal (k : Nat) :
    crashes (MAX_RESTARTS + 1 + k) =
      { restartCount := 0, active := false, resolved := some false, lastBackoffMs := none } := by
  induction k with
  | zero => decide
  | succ k ih =>
    show crash (crashes (MAX_RESTARTS + 1 + k)) = _
    rw [ih]
    decide

theorem filter_watchEvents_ne (g f : Name) (okg : Bool) (h : ¬ g = f) :
    (watchEvents g okg).filter (fun e => e.file == f) = [] := by
  have hb : (g == f) = false := beq_eq_false_iff_ne.mpr h
  simp [watchEvents, uploadEvents, List.filter, hb]

theorem filter_watchEvents_self (f : Name) (ok : Bool) :
    (watchEvents f ok).filter (fun e => e.file == f) = watchEvents f ok := by
  simp [watchEvents, uploadEvents, List.filter]

theorem filter_emitTrace_not_mem (jobs : List (Name × Bool)) (f : Name)
    (h : f ∉ jobs.map Prod.fst) :
    (emitTrace jobs).filter (fun e => e.file == f) = [] := by
  induction jobs with
  | nil => rfl
  | cons j t ih =>
    rw [show emitTrace (j :: t) = watchEvents j.1 j.2 ++ emitTrace t from rfl,
      List.filter_append]
    rw [List.map_cons, List.mem_cons, not_or] at h
    rw [filter_watchEvents_ne j.1 f j.2 (fun hh => h.1 hh.symm), ih h.2]
    rfl

/-- C7: every entry returned by the view merger `loadObjects` has its
trailing path separators stripped from its name, and its final path segment
is neither empty nor whitespace-only. -/
theorem loadObjects_entries_normalized (lsp : Option Name) (clp : Name)
    (gcs locals : List Entry) :
    (loadObjects lsp clp gcs locals).all entryNormalized = true := by
  unfold loadObjects
  exact postProcess_all_normalized _

/-- C4 counterexample: a `listObjects` call against a store that fails with
an authorization error returns a success result carrying an empty array,
byte-for-byte identical to the result for a genuinely empty bucket — not a
distinguishable error result. -/
theorem listObjects_auth_error_counterexample :
    listObjectsHandler
        (.error ⟨"401 caller does not have storage.objects.list access".data⟩) [] =
      { success := true, data := [] } ∧
    listObjectsHandler
        (.error ⟨"401 caller does not have storage.objects.list access".data⟩) [] =
      listObjectsHandler (.ok []) [] :=
  ⟨rfl, rfl⟩

/-- C4 amended: for every store error the `gcp:listObjects` handler returns
`success: true` with an empty object array — the Python except branch prints
an empty JSON list and the process exits 0 — so the caller cannot tell an
authorization failure apart from an empty bucket. -/
theorem listObjects_error_swallowed (e : StoreErr) (pfx : Name) :
    listObjectsHandler (.error e) pfx = { success := true, data := [] } ∧
    listObjectsHandler (.error e) pfx = listObjectsHandler (.ok []) pfx := by
  refine ⟨rfl, ?_⟩
  simp [listObjectsHandler, listObjectsPy, buildObjects, listItems, listCommonPfx]

/-- C8 counterexample: calling `stopSync` with no active session returns
`success: false`, not success, and so does a second call right after one
that stopped a live session. -/
theorem stopSync_idle_counterexample :
    (stopSyncHandler { active := false, restartCount := 0 }).2 = { success := false } ∧
    (stopSyncHandler (stopSyncHandler { active := true, restartCount := 0 }).1).2 =
      { success := false } :=
  ⟨rfl, rfl⟩

/-- C8 amended: `stopSync` is idempotent on state — a second call leaves the
state of the first unchanged and the session is always idle afterwards — but
it reports `success: true` only when it actually killed a process; called on
an idle session it returns `success: false`. -/
theorem stopSync_idempotent_state (s : BridgeSync) :
    (stopSyncHandler (stopSyncHandler s).1).1 = (stopSyncHandler s).1 ∧
    (stopSyncHandler (stopSyncHandler s).1).2 = { success := false } ∧
    (stopSyncHandler s).2.success = s.active ∧
    (stopSyncHandler s).1.active = false := by
  obtain ⟨a, rc⟩ := s
  cases a <;> simp [stopSyncHandler, stopBackgroundPython]

/-- C3 counterexample: after `MAX_RESTARTS` (3) consecutive crashes the
supervisor has not stopped relaunching — the third crash schedules a third
relaunch after the 2000 ms backoff, `restartCount` is 3, and the promise has
not resolved with an error. -/
theorem restart_bound_counterexample :
    crashes MAX_RESTARTS =
      { restartCount := 3, active := true, resolved := none, lastBackoffMs := some 2000 } := by
  decide

/-- C3 amended: each of the first `MAX_RESTARTS` (3) consecutive crashes
relaunches the process after a 2000 ms backoff and increments
`restartCount`; only the following (fourth) consecutive crash is terminal —
the supervisor drops the process handle, resolves the promise with
`success: false`, and attempts no further restart under any later crash. -/
theorem restart_bound_amended (n : Nat) (h : 1 ≤ n) :
    (n ≤ MAX_RESTARTS →
      crashes n =
        { restartCount := n, active := true, resolved := none, lastBackoffMs := some 2000 }) ∧
    (MAX_RESTARTS + 1 ≤ n →
      crashes n =
        { restartCount := 0, active := false, resolved := some false, lastBackoffMs := none }) := by
  constructor
  · intro h2
    unfold MAX_RESTARTS at h2
    interval_cases n <;> decide
  · intro h2
    obtain ⟨k, rfl⟩ : ∃ k, n = MAX_RESTARTS + 1 + k :=
      ⟨n - (MAX_RESTARTS + 1), (Nat.add_sub_cancel' h2).symm⟩
    exact crashes_terminal k

/-- C3 witness: the amended bound instantiated at the fourth crash. -/
theorem restart_bound_amended_witness :
    1 ≤ 4 ∧
    ((4 ≤ MAX_RESTARTS →
      crashes 4 =
        { restartCount := 4, active := true, resolved := none, lastBackoffMs := some 2000 }) ∧
    (MAX_RESTARTS + 1 ≤ 4 →
      crashes 4 =
        { restartCount := 0, active := false, resolved := some false, lastBackoffMs := none })) :=
  ⟨by decide, restart_bound_amended 4 (by decide)⟩

/-- C2 counterexample: during a sync session the folder placeholder for the
relative directory path `sub` is written at key `Desktop/sub/`, not at
rootFolderName + "/" + relative path = `Desktop/sub`; the root placeholder
(empty relative path) is written at `Desktop//`. -/
theorem upload_key_counterexample :
    create_folder_path '\\' "Desktop".data "sub".data = "Desktop/sub/".data ∧
    create_folder_path '\\' "Desktop".data "sub".data ≠ "Desktop".data ++ '/' :: "sub".data ∧
    create_folder_path '\\' "Desktop".data [] = "Desktop//".data := by
  decide

/-- C2 amended: during a sync session every uploaded file is written at key
rootFolderName + "/" + its separator-normalized relative path, and every
folder placeholder at the same key followed by a trailing "/" (so the root
placeholder, whose relative path is empty, lands at rootFolderName + "//");
in particular every key written carries the rootFolderName + "/" prefix. -/
theorem upload_key_amended (sep : Char) (folderName relPath : Name)
    (hf : ∀ c ∈ folderName, ¬ c = sep)
    (hr : ¬ relPath.getLast? = some '/') :
    upload_blob_name sep folderName relPath = folderName ++ '/' :: normSep sep relPath ∧
    create_folder_path sep folderName relPath =
      folderName ++ '/' :: (normSep sep relPath ++ ['/']) ∧
    (∃ r, upload_blob_name sep folderName relPath = folderName ++ '/' :: r) ∧
    (∃ r, create_folder_path sep folderName relPath = folderName ++ '/' :: r) := by
  have hid : List.map (fun c => if c = sep then '/' else c) folderName = folderName :=
    normSep_eq_self sep folderName hf
  have h1 : upload_blob_name sep folderName relPath = folderName ++ '/' :: normSep sep relPath := by
    simp [upload_blob_name, normSep, hid]
  have h2 : create_folder_path sep folderName relPath =
      folderName ++ '/' :: (normSep sep relPath ++ ['/']) := by
    simp [create_folder_path, normSep, hid, hr]
  exact ⟨h1, h2, ⟨_, h1⟩, ⟨_, h2⟩⟩

/-- A remote file object named `foo`. -/
def fooFile : Entry :=
  { name := "foo".data, size := 3, contentType := "text/plain".data,
    isLocal := false, syncState := none }

/-- A remote folder prefix named `foo/`. -/
def fooFolder : Entry :=
  { name := "foo/".data, size := 0, contentType := directoryCT,
    isLocal := false, syncState := none }

/-- C1 counterexample: with no active sync session the merger passes the
remote listing through 1:1 with no deduplication, so a bucket holding an
object `foo` next to a folder prefix `foo/` yields two entries with the
same displayName `foo` in one listing. -/
theorem merge_unique_display_counterexample :
    ((loadObjects none [] [fooFile, fooFolder] []).map displayName) =
      ["foo".data, "foo".data] ∧
    ¬ ((loadObjects none [] [fooFile, fooFolder] []).map displayName).Nodup :=
  ⟨by decide, by decide⟩

/-- C1 amended: while a sync session is active no two entries of a merged
listing share a displayName — duplicates between local entries, remote
entries and the synthesized sync-root entry are deduplicated at each level —
provided the remote keys are slash-delimited (no backslash, no key ending in
a doubled slash) and the local listing's names are distinct and
separator-free; with no session active the remote listing is passed through
1:1 and two remote entries may share a displayName. -/
theorem merge_unique_display_amended (p clp : Name) (gcs locals : List Entry)
    (hg : ∀ g ∈ gcs, (∀ c ∈ g.name, ¬ c = '\\') ∧
      ¬ (dropOneSlash g.name).getLast? = some '/')
    (hln : (locals.map Entry.name).Nodup)
    (hls : ∀ l ∈ locals, ∀ c ∈ l.name, isSep c = false) :
    ((loadObjects (some p) clp gcs locals).map displayName).Nodup := by
  by_cases hclp : clp = []
  · subst hclp
    have hload : loadObjects (some p) [] gcs locals =
        postProcess (virtualRoot (rootNameOf p) gcs) := rfl
    rw [hload]
    obtain ⟨rest, heq, hall⟩ := virtualRoot_shape (rootNameOf p) gcs
      [syncedRootEntry (rootNameOf p)] (fun g hgm => (hg g hgm).1)
    apply postProcess_display_nodup
    · unfold virtualRoot
      apply virtualRoot_nodup
      simp
    · unfold virtualRoot
      rw [heq]
      intro e he
      rcases List.mem_append.mp he with he1 | he1
      · rw [List.mem_singleton] at he1
        subst he1
        exact fun c hc => rootNameOf_sepFree p c hc
      · exact (hall e he1).2.2.2.2
  · have hload : loadObjects (some p) clp gcs locals =
        postProcess (insideFolder (rootNameOf p) clp gcs locals) := by
      simp only [loadObjects]
      rw [if_neg hclp]
    rw [hload]
    apply postProcess_display_nodup
    · unfold insideFolder
      apply insideFolder_foldl_nodup
      rw [List.map_map,
        map_eq_map_of
          (Entry.name ∘ localMerged (rootNameOf p) (relativePathOf (rootNameOf p) clp) gcs)
          Entry.name locals (fun e _ => rfl)]
      exact hln
    · unfold insideFolder
      refine insideFolder_foldl_sepFree _ _ gcs _ hg ?_
      intro e he
      obtain ⟨l, hl, rfl⟩ := List.mem_map.mp he
      exact fun c hc => hls l hl c hc

/-- A remote object under a top-level folder distinct from the sync root. -/
def otherRemote : Entry :=
  { name := "Other/a.txt".data, size := 1, contentType := "text/plain".data,
    isLocal := false, syncState := none }

/-- C1 witness: the amended uniqueness instantiated at the virtual root of a
session over Desktop with one other remote object. -/
theorem merge_unique_display_amended_witness :
    (∀ g ∈ [otherRemote], (∀ c ∈ g.name, ¬ c = '\\') ∧
      ¬ (dropOneSlash g.name).getLast? = some '/') ∧
    (([] : List Entry).map Entry.name).Nodup ∧
    (∀ l ∈ ([] : List Entry), ∀ c ∈ l.name, isSep c = false) ∧
    ((loadObjects (some "C:\\Users\\u\\Desktop".data) [] [otherRemote] []).map
      displayName).Nodup :=
  ⟨by decide, by decide, by decide,
    merge_unique_display_amended "C:\\Users\\u\\Desktop".data [] [otherRemote] []
      (by decide) (by decide) (by decide)⟩

/-- C5: at the virtual root with an active session whose root folder name is
non-blank and whose remote keys hold no backslash, the merged listing begins
with the synthesized `synced` directory entry named rootFolderName; every
later entry is a remote-only `synced` entry whose name is the top-level base
name of some remote entry and differs from rootFolderName; every remote
entry whose non-blank base name differs from rootFolderName is represented;
and exactly one entry carries the rootFolderName name. -/
theorem virtual_root_merge (p : Name) (gcs locals : List Entry)
    (hroot : nonBlank (rootNameOf p) = true)
    (hg : ∀ g ∈ gcs, ∀ c ∈ g.name, ¬ c = '\\') :
    (loadObjects (some p) [] gcs locals).head? =
      some (syncedRootEntry (rootNameOf p)) ∧
    (∀ e ∈ (loadObjects (some p) [] gcs locals).tail,
      e.syncState = some .synced ∧ e.isLocal = false ∧ e.name ≠ rootNameOf p ∧
        ∃ g ∈ gcs, e.name = firstSlashSeg (dropOneSlash g.name)) ∧
    (∀ g ∈ gcs, firstSlashSeg (dropOneSlash g.name) ≠ rootNameOf p →
      nonBlank (firstSlashSeg (dropOneSlash g.name)) = true →
      ∃ e ∈ loadObjects (some p) [] gcs locals,
        e.name = firstSlashSeg (dropOneSlash g.name)) ∧
    ((loadObjects (some p) [] gcs locals).map Entry.name).count (rootNameOf p) = 1 := by
  have hload : loadObjects (some p) [] gcs locals =
      postProcess (virtualRoot (rootNameOf p) gcs) := rfl
  have hrsf : ∀ c ∈ rootNameOf p, isSep c = false := rootNameOf_sepFree p
  obtain ⟨rest, heq, hall⟩ := virtualRoot_shape (rootNameOf p) gcs
    [syncedRootEntry (rootNameOf p)] hg
  have hvr : virtualRoot (rootNameOf p) gcs = syncedRootEntry (rootNameOf p) :: rest := by
    unfold virtualRoot
    rw [heq]
    rfl
  have hr1 : dropTrailingSeps (syncedRootEntry (rootNameOf p)).name =
      (syncedRootEntry (rootNameOf p)).name := dropTrailingSeps_sepFree _ hrsf
  have hr2 : nonBlank (lastSeg (syncedRootEntry (rootNameOf p)).name) = true := by
    rw [show (syncedRootEntry (rootNameOf p)).name = rootNameOf p from rfl,
      lastSeg_sepFree _ hrsf]
    exact hroot
  have hmapid : rest.map (fun f => { f with name := dropTrailingSeps f.name }) = rest :=
    map_eq_self_of _ rest (fun x hx => by
      rw [dropTrailingSeps_sepFree x.name ((hall x hx).2.2.2.2)])
  have hpp : loadObjects (some p) [] gcs locals =
      syncedRootEntry (rootNameOf p) :: postProcess rest := by
    rw [hload, hvr, postProcess_cons_of _ _ hr1 hr2]
  have hppr : ∀ e ∈ postProcess rest, e ∈ rest ∧ VRProp (rootNameOf p) gcs e := by
    intro e he
    unfold postProcess at he
    rw [hmapid] at he
    have hin := List.mem_of_mem_filter he
    exact ⟨hin, hall e hin⟩
  refine ⟨?_, ?_, ?_, ?_⟩
  · rw [hpp]
    rfl
  · rw [hpp]
    intro e he
    obtain ⟨-, h1, h2, h3, h4, -⟩ := hppr e he
    exact ⟨h1, h2, h3, h4⟩
  · intro g hgm hne hnb
    obtain ⟨e, he, hn⟩ := virtualRoot_presence (rootNameOf p) gcs
      [syncedRootEntry (rootNameOf p)] g hgm hne hnb
    rw [heq] at he
    rcases List.mem_append.mp he with he1 | he1
    · rw [List.mem_singleton] at he1
      subst he1
      exact absurd hn (Ne.symm hne)
    · have hsf := (hall e he1).2.2.2.2
      refine ⟨e, ?_, hn⟩
      rw [hpp]
      apply List.mem_cons_of_mem
      unfold postProcess
      rw [hmapid, List.mem_filter]
      refine ⟨he1, ?_⟩
      rw [lastSeg_sepFree e.name hsf, hn]
      exact hnb
  · rw [hpp, List.map_cons,
      show (syncedRootEntry (rootNameOf p)).name = rootNameOf p from rfl,
      List.count_cons_self]
    have hzero : ((postProcess rest).map Entry.name).count (rootNameOf p) = 0 := by
      rw [List.count_eq_zero]
      intro hmem
      obtain ⟨e, he, hname⟩ := List.mem_map.mp hmem
      exact ((hppr e he).2.2.2.1) hname
    rw [hzero]

/-- A remote object under a `Music` top-level folder. -/
def musicRemote : Entry :=
  { name := "Music/song.mp3".data, size := 9, contentType := "audio/mpeg".data,
    isLocal := false, syncState := none }

/-- C5 witness: the virtual-root listing instantiated over a Desktop session
with one remote object outside the synced root. -/
theorem virtual_root_merge_witness :
    nonBlank (rootNameOf "D:/Data/Desktop".data) = true ∧
    (∀ g ∈ [musicRemote], ∀ c ∈ g.name, ¬ c = '\\') ∧
    ((loadObjects (some "D:/Data/Desktop".data) [] [musicRemote] []).head? =
      some (syncedRootEntry (rootNameOf "D:/Data/Desktop".data)) ∧
    (∀ e ∈ (loadObjects (some "D:/Data/Desktop".data) [] [musicRemote] []).tail,
      e.syncState = some .synced ∧ e.isLocal = false ∧
        e.name ≠ rootNameOf "D:/Data/Desktop".data ∧
        ∃ g ∈ [musicRemote], e.name = firstSlashSeg (dropOneSlash g.name)) ∧
    (∀ g ∈ [musicRemote],
      firstSlashSeg (dropOneSlash g.name) ≠ rootNameOf "D:/Data/Desktop".data →
      nonBlank (firstSlashSeg (dropOneSlash g.name)) = true →
      ∃ e ∈ loadObjects (some "D:/Data/Desktop".data) [] [musicRemote] [],
        e.name = firstSlashSeg (dropOneSlash g.name)) ∧
    ((loadObjects (some "D:/Data/Desktop".data) [] [musicRemote] []).map
      Entry.name).count (rootNameOf "D:/Data/Desktop".data) = 1) :=
  ⟨by decide, by decide,
    virtual_root_merge "D:/Data/Desktop".data [musicRemote] [] (by decide) (by decide)⟩

/-- C6: for every file the watcher detects while a session is watching, the
emitted event stream carries that file's transitions in the order pending,
uploading, then synced or error, and the projection of the whole trace onto
that file is exactly that sequence, whatever the arrival order of the other
files. -/
theorem trace_per_file_ordered (jobs : List (Name × Bool)) (f : Name) (ok : Bool)
    (hnd : (jobs.map Prod.fst).Nodup) (hmem : (f, ok) ∈ jobs) :
    (emitTrace jobs).filter (fun e => e.file == f) = watchEvents f ok ∧
    watchEvents f ok =
      [⟨f, .pending⟩, ⟨f, .uploading⟩, ⟨f, if ok then .synced else .error⟩] := by
  refine ⟨?_, rfl⟩
  induction jobs with
  | nil => cases hmem
  | cons j t ih =>
    rw [show emitTrace (j :: t) = watchEvents j.1 j.2 ++ emitTrace t from rfl,
      List.filter_append]
    rw [List.map_cons, List.nodup_cons] at hnd
    by_cases hj : j.1 = f
    · have hne : f ∉ t.map Prod.fst := hj ▸ hnd.1
      have hj2 : j = (f, ok) := by
        rcases List.mem_cons.mp hmem with h1 | h1
        · exact h1.symm
        · exact absurd (hj ▸ List.mem_map_of_mem Prod.fst h1) hnd.1
      rw [hj2]
      rw [filter_watchEvents_self, filter_emitTrace_not_mem t f hne, List.append_nil]
    · have hm : (f, ok) ∈ t := by
        rcases List.mem_cons.mp hmem with h1 | h1
        · exact absurd (by rw [← h1]) hj
        · exact h1
      rw [filter_watchEvents_ne j.1 f j.2 hj, List.nil_append]
      exact ih hnd.2 hm

/-- C6 witness: the ordering property instantiated on a two-file trace. -/
theorem trace_per_file_ordered_witness :
    ((["b.txt".data, "c.txt".data] : List Name).Nodup ∧
      ("b.txt".data, true) ∈ [("b.txt".data, true), ("c.txt".data, false)]) ∧
    ((emitTrace [("b.txt".data, true), ("c.txt".data, false)]).filter
        (fun e => e.file == "b.txt".data) = watchEvents "b.txt".data true ∧
      watchEvents "b.txt".data true =
        [⟨"b.txt".data, .pending⟩, ⟨"b.txt".data, .uploading⟩,
          ⟨"b.txt".data, if true then .synced else .error⟩]) :=
  ⟨⟨by decide, by decide⟩,
    trace_per_file_ordered [("b.txt".data, true), ("c.txt".data, false)]
      "b.txt".data true (by decide) (by decide)⟩

/-- C2 witness: the amended key mapping instantiated on a Windows-style
relative path. -/
theorem upload_key_amended_witness :
    (∀ c ∈ "Desktop".data, ¬ c = '\\') ∧
    ¬ ("sub\\dir.txt".data : Name).getLast? = some '/' ∧
    (upload_blob_name '\\' "Desktop".data "sub\\dir.txt".data =
      "Desktop".data ++ '/' :: normSep '\\' "sub\\dir.txt".data ∧
    create_folder_path '\\' "Desktop".data "sub\\dir.txt".data =
      "Desktop".data ++ '/' :: (normSep '\\' "sub\\dir.txt".data ++ ['/']) ∧
    (∃ r, upload_blob_name '\\' "Desktop".data "sub\\dir.txt".data =
      "Desktop".data ++ '/' :: r) ∧
    (∃ r, create_folder_path '\\' "Desktop".data "sub\\dir.txt".data =
      "Desktop".data ++ '/' :: r)) :=
  ⟨by decide, by decide,
    upload_key_amended '\\' "Desktop".data "sub\\dir.txt".data (by decide) (by decide)⟩

end AllDrive
